import Mathlib

/-!
# Verification of the `APIFeatures` query pipeline of dashboard-backend

This file gives a shallow embedding of `src/utils/apiFeatures.ts`: the
in-memory query pipeline (filter, sort, limitFields, paginate, getMetadata)
that the repository applies to collections of schemaless records.

The source file contains two variants of the `APIFeatures` class.  The first
("V1") keeps a `filteredData` snapshot for metadata and evaluates
array-valued query entries with AND logic; the second ("V2") computes
metadata from an `originalData` snapshot of the unfiltered input and has no
array handling in its filter.  Both are embedded below.

Modelling conventions:
* JS numbers are embedded as exact rationals (`JNum`): an integer numerator
  over a positive integer denominator, not necessarily reduced.  `NaN` is
  represented as `none` at every site where a parse can fail, exactly where
  the source produces `NaN` and tests it with `isNaN`.  The floating point
  values reachable in this fragment (decimal literals of query strings and
  their arithmetic in `paginate`) are exact, so no rounding is modelled.
* JS strings are Lean `String`s; the primitive string operations used by the
  source (`split`, `trim`, `toLowerCase`, `includes`, `startsWith`) are
  re-implemented on `List Char` so that the proofs can compute with them.
* `new Date(x)` parsing: the source's own comment says operands are ISO
  strings, so string-to-date parsing is modelled as ISO-8601
  (`YYYY-MM-DD`, optionally `THH:MM:SS` and a trailing `Z`); numbers and
  booleans convert the way `new Date(Number)` does (millisecond timestamps).
* `Array.prototype.sort` is stable per ES2019; it is modelled by a stable
  insertion sort over the source's comparator.
* Mutation: `this.data` initially aliases the caller's array and
  `Array.prototype.sort` sorts in place, while `filter`, `map`, `slice` and
  `[...x]` allocate.  The state record `FeatState` tracks the caller's array
  and whether `this.data` still aliases it.
* Record values are strings, numbers, booleans or null; reserved query
  parameters (`page`, `sort`, `limit`, `fields`) are modelled as
  string-valued or (for repeated keys) arrays of strings, as delivered by
  the Express query parser.
-/

namespace DashboardBackend

/-- A JS number reachable in this fragment: an exact rational, written as an
integer numerator over a (positive, not necessarily reduced) denominator. -/
structure JNum where
  num : Int
  den : Int
deriving DecidableEq, Repr

/-- The integer `n` as a JS number. -/
def JNum.ofInt (n : Int) : JNum := ⟨n, 1⟩

/-- JS numeric equality (`==`/`===` on two numbers), by cross multiplication. -/
def JNum.eqv (a b : JNum) : Bool := a.num * b.den == b.num * a.den

/-- JS `<` on numbers. -/
def JNum.lt (a b : JNum) : Bool := a.num * b.den < b.num * a.den

/-- JS `<=` on numbers. -/
def JNum.le (a b : JNum) : Bool := a.num * b.den ≤ b.num * a.den

/-- JS `-` on numbers. -/
def JNum.sub (a b : JNum) : JNum := ⟨a.num * b.den - b.num * a.den, a.den * b.den⟩

/-- JS `+` on numbers. -/
def JNum.add (a b : JNum) : JNum := ⟨a.num * b.den + b.num * a.den, a.den * b.den⟩

/-- JS `*` on numbers. -/
def JNum.mul (a b : JNum) : JNum := ⟨a.num * b.num, a.den * b.den⟩

/-- JS `ToIntegerOrInfinity` on a finite number: truncation toward zero. -/
def JNum.trunc (a : JNum) : Int := Int.tdiv a.num a.den

/-- `Math.ceil (n / d)` for integers `n`, `d` with `d ≠ 0` (the `d = 0`
branch is unreachable: the pipeline never divides by zero). -/
def ceilRat (n d : Int) : Int :=
  if 0 < d then -(Int.fdiv (-n) d)
  else if d < 0 then -(Int.fdiv n (-d))
  else 0

/-- A dynamically-typed record field value (the variants reachable in the
pipeline: string, number, boolean, null). -/
inductive Value
  | vStr (s : String)
  | vNum (q : JNum)
  | vBool (b : Bool)
  | vNull
deriving DecidableEq, Repr

/-- A record: an ordered mapping from field name to value. -/
abbrev Rec := List (String × Value)

/-- A query-string entry value: a single raw string, or the same key
supplied several times (an array of raw strings). -/
inductive QVal
  | qStr (s : String)
  | qArr (l : List String)
deriving DecidableEq, Repr

/-- The caller's parsed query string. -/
abbrev QuerySpec := List (String × QVal)

/-! ## String primitives (re-implementations of the JS operations used) -/

/-- `a.startsWith(p)` on character lists. -/
def listStartsWith : List Char → List Char → Bool
  | _, [] => true
  | [], _ :: _ => false
  | a :: as, b :: bs => a == b && listStartsWith as bs

/-- `h.includes(n)` on character lists (substring containment). -/
def listHasSub : List Char → List Char → Bool
  | [], n => n.isEmpty
  | h@(_ :: t), n => listStartsWith h n || listHasSub t n

/-- `s.split(",")` on character lists. -/
def splitComma : List Char → List (List Char)
  | [] => [[]]
  | c :: rest =>
    if c == ',' then [] :: splitComma rest
    else
      match splitComma rest with
      | [] => [[c]]
      | h :: t => (c :: h) :: t

/-- `s.split(",")`. -/
def splitCommaStr (s : String) : List String :=
  (splitComma s.data).map String.mk

/-- `l.join(",")` (the `ToPrimitive` conversion of an array of strings). -/
def joinComma : List String → String
  | [] => ""
  | [s] => s
  | s :: rest => s ++ "," ++ joinComma rest

/-- JS whitespace for `trim` / number parsing. -/
def isWS (c : Char) : Bool := c == ' ' || c == '\t' || c == '\n' || c == '\r'

/-- `s.trim()`. -/
def jsTrim (s : String) : String :=
  String.mk (((s.data.dropWhile isWS).reverse.dropWhile isWS).reverse)

/-- `s.toLowerCase()` (on the ASCII range exercised here). -/
def lowerStr (s : String) : String := String.mk (s.data.map Char.toLower)

/-- `s.includes(",")`. -/
def hasComma (s : String) : Bool := s.data.contains ','

/-! ## Number parsing (`parseFloat` and `Number`) -/

/-- The numeric value of a digit list (most significant first). -/
def digitsToNat (l : List Char) : Nat :=
  l.foldl (fun n c => n * 10 + (c.toNat - 48)) 0

/-- Leading decimal digits of a character list, and the rest. -/
def decSpan (l : List Char) : List Char × List Char :=
  (l.takeWhile Char.isDigit, l.dropWhile Char.isDigit)

/-- Longest unsigned decimal prefix, as in `parseFloat` (integer part,
optional point, fractional part); `none` when no digit is found (`NaN`). -/
def parseUnsignedPre (l : List Char) : Option JNum :=
  let ip := (decSpan l).1
  let r1 := (decSpan l).2
  let fp :=
    match r1 with
    | '.' :: rest => (decSpan rest).1
    | _ => []
  if ip.isEmpty && fp.isEmpty then none
  else
    some ⟨(digitsToNat ip : Int) * (10 : Int) ^ fp.length + (digitsToNat fp : Int),
          (10 : Int) ^ fp.length⟩

/-- `parseFloat(s)`: skip leading whitespace, optional sign, longest
numeric prefix; `none` is `NaN`. -/
def parseFloatJS (s : String) : Option JNum :=
  match s.data.dropWhile isWS with
  | '-' :: rest => (parseUnsignedPre rest).map (fun q => ⟨-q.num, q.den⟩)
  | '+' :: rest => parseUnsignedPre rest
  | l => parseUnsignedPre l

/-- An entire character list as an unsigned decimal literal, or `none`. -/
def parseAllUnsigned (l : List Char) : Option JNum :=
  let ip := (decSpan l).1
  match (decSpan l).2 with
  | [] => if ip.isEmpty then none else some ⟨(digitsToNat ip : Int), 1⟩
  | '.' :: rest =>
    let fp := (decSpan rest).1
    if ((decSpan rest).2).isEmpty && !(ip.isEmpty && fp.isEmpty) then
      some ⟨(digitsToNat ip : Int) * (10 : Int) ^ fp.length + (digitsToNat fp : Int),
            (10 : Int) ^ fp.length⟩
    else none
  | _ => none

/-- JS `ToNumber` on a string: trimmed; empty means `0`; otherwise the whole
string must be a decimal literal, else `NaN` (`none`). -/
def toNumberStr (s : String) : Option JNum :=
  let t := ((s.data.dropWhile isWS).reverse.dropWhile isWS).reverse
  if t.isEmpty then some (JNum.ofInt 0)
  else
    match t with
    | '-' :: rest => (parseAllUnsigned rest).map (fun q => ⟨-q.num, q.den⟩)
    | '+' :: rest => parseAllUnsigned rest
    | l => parseAllUnsigned l

/-- JS `ToNumber` on a record value. -/
def toNumberVal : Value → Option JNum
  | .vStr s => toNumberStr s
  | .vNum q => some q
  | .vBool b => some (JNum.ofInt (if b then 1 else 0))
  | .vNull => some (JNum.ofInt 0)

/-- JS loose equality `v == s` between a record value and a string. -/
def looseEqStr (v : Value) (s : String) : Bool :=
  match v with
  | .vStr t => t == s
  | .vNull => false
  | _ =>
    match toNumberVal v, toNumberStr s with
    | some a, some b => JNum.eqv a b
    | _, _ => false

/-! ## Date parsing (`new Date(x)`, ISO strings per the source's comment) -/

/-- Days from 1970-01-01 of a civil date (days-from-civil algorithm). -/
def daysFromCivil (y : Int) (m d : Nat) : Int :=
  let y' : Int := if m ≤ 2 then y - 1 else y
  let era : Int := Int.fdiv y' 400
  let yoe : Int := y' - era * 400
  let mp : Int := ((m : Int) + 9) % 12
  let doy : Int := Int.fdiv (153 * mp + 2) 5 + (d : Int) - 1
  let doe : Int := yoe * 365 + Int.fdiv yoe 4 - Int.fdiv yoe 100 + doy
  era * 146097 + doe - 719468

/-- The numeric value of a two-digit pair. -/
def twoDigits (a b : Char) : Nat := (a.toNat - 48) * 10 + (b.toNat - 48)

/-- Optional `THH:MM:SS` (optionally `Z`-suffixed) tail of an ISO string,
in milliseconds. -/
def isoTimeMs : List Char → Option Int
  | [] => some 0
  | 'T' :: h1 :: h2 :: ':' :: m1 :: m2 :: ':' :: s1 :: s2 :: rest =>
    if [h1, h2, m1, m2, s1, s2].all Char.isDigit
        && twoDigits h1 h2 < 24 && twoDigits m1 m2 < 60 && twoDigits s1 s2 < 60
        && (rest.isEmpty || rest == ['Z']) then
      some (((twoDigits h1 h2 * 3600 + twoDigits m1 m2 * 60 + twoDigits s1 s2) : Int) * 1000)
    else none
  | _ => none

/-- `new Date(s)` for a string: the millisecond timestamp of an ISO-8601
`YYYY-MM-DD[THH:MM:SS[Z]]` string, `none` (an invalid date) otherwise. -/
def isoDateMs (s : String) : Option JNum :=
  match s.data with
  | y1 :: y2 :: y3 :: y4 :: '-' :: m1 :: m2 :: '-' :: d1 :: d2 :: rest =>
    if [y1, y2, y3, y4, m1, m2, d1, d2].all Char.isDigit
        && 1 ≤ twoDigits m1 m2 && twoDigits m1 m2 ≤ 12
        && 1 ≤ twoDigits d1 d2 && twoDigits d1 d2 ≤ 31 then
      match isoTimeMs rest with
      | some t =>
        some (JNum.ofInt
          (daysFromCivil ((digitsToNat [y1, y2, y3, y4] : Int))
              (twoDigits m1 m2) (twoDigits d1 d2) * 86400000 + t))
      | none => none
    else none
  | _ => none

/-- `new Date(x).getTime()` for a record value (`none` is an invalid date). -/
def jsDateOfValue : Value → Option JNum
  | .vStr s => isoDateMs s
  | .vNum q => some q
  | .vBool b => some (JNum.ofInt (if b then 1 else 0))
  | .vNull => some (JNum.ofInt 0)

/-! ## The range operators and condition evaluation (first variant) -/

/-- The four range operators. -/
inductive RangeKind
  | rGte
  | rGt
  | rLte
  | rLt
deriving DecidableEq, Repr

/-- Match `v` against `^gte:(.+)$`, `^gt:(.+)$`, `^lte:(.+)$`, `^lt:(.+)$`
(in the source's order), returning the operator and its operand. -/
def rangeOp (v : String) : Option (RangeKind × String) :=
  let l := v.data
  if listStartsWith l "gte:".data && decide (4 < l.length) then
    some (.rGte, String.mk (l.drop 4))
  else if listStartsWith l "gt:".data && decide (3 < l.length) then
    some (.rGt, String.mk (l.drop 3))
  else if listStartsWith l "lte:".data && decide (4 < l.length) then
    some (.rLte, String.mk (l.drop 4))
  else if listStartsWith l "lt:".data && decide (3 < l.length) then
    some (.rLt, String.mk (l.drop 3))
  else none

/-- The comparison selected by a range operator. -/
def cmpByKind (k : RangeKind) (a b : JNum) : Bool :=
  match k with
  | .rGte => JNum.le b a
  | .rGt => JNum.lt b a
  | .rLte => JNum.le a b
  | .rLt => JNum.lt a b

/-- The non-range part of `evaluateCondition` (the OR-list / substring /
loose-equality rules that follow the operator block in the source). -/
def evalPlain (v : Value) (s : String) : Bool :=
  if hasComma s then
    let vals := (splitCommaStr s).map jsTrim
    match v with
    | .vStr t => vals.any (fun w => listHasSub (lowerStr t).data (lowerStr w).data)
    | _ => vals.any (fun w => looseEqStr v w)
  else
    match v with
    | .vStr t => listHasSub (lowerStr t).data (lowerStr s).data
    | _ => looseEqStr v s

/-- `APIFeatures.evaluateCondition` of the first variant: try the range
operators (dates first, then numbers; an unparseable operand falls through),
then the comma OR-list, then substring containment / loose equality. -/
def evalConditionV1 (v : Value) (s : String) : Bool :=
  match rangeOp s with
  | some (k, op) =>
    match isoDateMs op, jsDateOfValue v with
    | some od, some vd => cmpByKind k vd od
    | _, _ =>
      match parseFloatJS op with
      | some n =>
        match toNumberVal v with
        | some m => cmpByKind k m n
        | none => false
      | none => evalPlain v s
  | none => evalPlain v s

/-! ## Filter stage (first variant) -/

/-- The reserved query keys, excluded from filtering. -/
def reservedKeys : List String := ["page", "sort", "limit", "fields"]

/-- The query object after `delete queryObj[el]` for every reserved key. -/
def nonReserved (qs : QuerySpec) : QuerySpec :=
  qs.filter (fun kv => !(reservedKeys.contains kv.1))

/-- One key of the first variant's filter predicate: absent and null field
values fail; an array of raw values is AND-ed; a single raw value goes
through `evaluateCondition`. -/
def passKeyV1 (item : Rec) (key : String) (qv : QVal) : Bool :=
  match item.lookup key with
  | none => false
  | some .vNull => false
  | some v =>
    match qv with
    | .qStr s => evalConditionV1 v s
    | .qArr l => l.all (fun s => evalConditionV1 v s)

/-- The first variant's whole-record filter predicate (AND over the
non-reserved keys). -/
def passRecordV1 (qo : QuerySpec) (item : Rec) : Bool :=
  qo.all (fun kv => passKeyV1 item kv.1 kv.2)

/-- `APIFeatures.filter` of the first variant: a no-op when no non-reserved
key is present, otherwise `Array.prototype.filter` with the predicate. -/
def filterStageV1 (qs : QuerySpec) (data : List Rec) : List Rec :=
  let qo := nonReserved qs
  if qo.isEmpty then data else data.filter (passRecordV1 qo)

/-! ## Sort stage (shared by both variants) -/

/-- A sort field: leading `-` marks descending. -/
def stripDesc (f : String) : Bool × String :=
  if listStartsWith f.data ['-'] then (true, String.mk (f.data.drop 1)) else (false, f)

/-- JS strict equality between two field lookups (`aValue !== bValue` guard);
numbers compare numerically, everything else structurally. -/
def jsStrictEqOpt (x y : Option Value) : Bool :=
  match x, y with
  | some (.vNum a), some (.vNum b) => JNum.eqv a b
  | _, _ => x == y

/-- JS `ToNumber` of a field lookup (`undefined` is `NaN`). -/
def toNumOpt : Option Value → Option JNum
  | none => none
  | some v => toNumberVal v

/-- Lexicographic `<` on character lists (JS string comparison). -/
def lexLt : List Char → List Char → Bool
  | [], [] => false
  | [], _ :: _ => true
  | _ :: _, [] => false
  | a :: as, b :: bs => if a < b then true else if b < a then false else lexLt as bs

/-- JS `<` between two field lookups: string/string compares
lexicographically, otherwise both convert to numbers (`NaN` compares false). -/
def jsLtOpt (x y : Option Value) : Bool :=
  match x, y with
  | some (.vStr a), some (.vStr b) => lexLt a.data b.data
  | _, _ =>
    match toNumOpt x, toNumOpt y with
    | some a, some b => JNum.lt a b
    | _, _ => false

/-- One field of the source's comparator: `0` when the values are strictly
equal or incomparable, otherwise `±1` by direction. -/
def cmpField (a b : Rec) (f : String) : Int :=
  let desc := (stripDesc f).1
  let name := (stripDesc f).2
  let av := a.lookup name
  let bv := b.lookup name
  if jsStrictEqOpt av bv then 0
  else if jsLtOpt av bv then (if desc then 1 else -1)
  else if jsLtOpt bv av then (if desc then -1 else 1)
  else 0

/-- The source's multi-key comparator: first field that orders decides. -/
def cmpRecords (fs : List String) (a b : Rec) : Int :=
  match fs with
  | [] => 0
  | f :: rest => if cmpField a b f == 0 then cmpRecords rest a b else cmpField a b f

/-- Stable insertion of `x` (earlier in the input than everything in the
already-sorted list) before the first element it does not strictly follow. -/
def insertStable (cmp : Rec → Rec → Int) (x : Rec) : List Rec → List Rec
  | [] => [x]
  | y :: ys => if cmp x y ≤ 0 then x :: y :: ys else y :: insertStable cmp x ys

/-- `Array.prototype.sort` with a comparator, modelled as a stable insertion
sort (ES2019 requires the built-in sort to be stable). -/
def sortListCmp (cmp : Rec → Rec → Int) : List Rec → List Rec
  | [] => []
  | x :: xs => insertStable cmp x (sortListCmp cmp xs)

/-- The active sort field list: present when `queryString.sort` is a
non-empty string (an empty string is falsy in JS; an array-valued `sort`
makes the source throw at `.split` and is outside the embedded fragment,
so it is treated as inactive here, as is an array-valued `fields`). -/
def sortFieldsOf (qs : QuerySpec) : Option (List String) :=
  match qs.lookup "sort" with
  | some (.qStr s) => if s == "" then none else some (splitCommaStr s)
  | _ => none

/-- `APIFeatures.sort` (identical in both variants), as a function on the
sequence; the in-place aspect is modelled separately by `FeatState`. -/
def sortStageV1 (qs : QuerySpec) (data : List Rec) : List Rec :=
  match sortFieldsOf qs with
  | some fs => sortListCmp (cmpRecords fs) data
  | none => data

/-! ## Projection stage (shared by both variants) -/

/-- `newItem[field] = item[field]`: update the first occurrence of the key,
or append it. -/
def setKey : Rec → String → Value → Rec
  | [], k, v => [(k, v)]
  | (k', v') :: rest, k, v =>
    if k' == k then (k', v) :: rest else (k', v') :: setKey rest k v

/-- The `fields.forEach` loop of `limitFields`, building the projected
record: copy each requested field that exists on the source record. -/
def projectAux (item : Rec) : List String → Rec → Rec
  | [], acc => acc
  | f :: rest, acc =>
    match item.lookup f with
    | some v => projectAux item rest (setKey acc f v)
    | none => projectAux item rest acc

/-- The projection of one record onto a field list. -/
def projectRec (fields : List String) (item : Rec) : Rec :=
  projectAux item fields []

/-- The active projection field list (`queryString.fields` non-empty). -/
def fieldsOf (qs : QuerySpec) : Option (List String) :=
  match qs.lookup "fields" with
  | some (.qStr s) => if s == "" then none else some (splitCommaStr s)
  | _ => none

/-- `APIFeatures.limitFields` (identical in both variants). -/
def limitFieldsStage (qs : QuerySpec) (data : List Rec) : List Rec :=
  match fieldsOf qs with
  | some fl => data.map (projectRec fl)
  | none => data

/-! ## Pagination and metadata -/

/-- `Number(x)` for a query-string entry: `undefined` is `NaN`; an array
converts through `ToPrimitive` (its comma join). -/
def qvalToNumber : Option QVal → Option JNum
  | none => none
  | some (.qStr s) => toNumberStr s
  | some (.qArr l) => toNumberStr (joinComma l)

/-- `Number(x) || d`: `NaN` and `0` fall back to the default. -/
def numOr (o : Option QVal) (d : JNum) : JNum :=
  match qvalToNumber o with
  | none => d
  | some q => if q.num == 0 then d else q

/-- The effective `page` (`Number(queryString.page) || 1`). -/
def effPage (qs : QuerySpec) : JNum := numOr (qs.lookup "page") (JNum.ofInt 1)

/-- The effective `limit` (`Number(queryString.limit) || 100`). -/
def effLimit (qs : QuerySpec) : JNum := numOr (qs.lookup "limit") (JNum.ofInt 100)

/-- `Array.prototype.slice(s, e)`: indices truncate toward zero, negative
indices count from the end, and both clip to the bounds. -/
def jsSlice (l : List Rec) (s e : JNum) : List Rec :=
  let n : Int := l.length
  let s' := JNum.trunc s
  let e' := JNum.trunc e
  let si : Int := if s' < 0 then max (n + s') 0 else min s' n
  let ei : Int := if e' < 0 then max (n + e') 0 else min e' n
  (l.take ei.toNat).drop si.toNat

/-- The slice taken by `APIFeatures.paginate`:
`data.slice(skip, skip + limit)` with `skip = (page - 1) * limit`. -/
def paginateSlice (qs : QuerySpec) (data : List Rec) : List Rec :=
  let p := effPage qs
  let L := effLimit qs
  let skip := JNum.mul (JNum.sub p (JNum.ofInt 1)) L
  jsSlice data skip (JNum.add skip L)

/-- The metadata record returned by `getMetadata`. -/
structure Meta where
  page : JNum
  limit : JNum
  total : Nat
  totalPages : Int
  hasNextPage : Bool
  hasPrevPage : Bool
deriving DecidableEq, Repr

/-- `getMetadata` given the record count its variant uses as `total`. -/
def metaOf (qs : QuerySpec) (total : Nat) : Meta :=
  let p := effPage qs
  let L := effLimit qs
  let tp : Int := ceilRat ((total : Int) * L.den) L.num
  { page := p, limit := L, total := total, totalPages := tp,
    hasNextPage := JNum.lt p (JNum.ofInt tp),
    hasPrevPage := JNum.lt (JNum.ofInt 1) p }

/-! ## The two pipelines -/

/-- The first variant's full pipeline
`new APIFeatures(data, qs).filter().sort().limitFields().paginate()` plus
`getMetadata()`: `paginate` snapshots `filteredData` just before slicing and
`getMetadata` counts that snapshot. -/
def runPipelineV1 (input : List Rec) (qs : QuerySpec) : List Rec × Meta :=
  let d1 := filterStageV1 qs input
  let d2 := sortStageV1 qs d1
  let d3 := limitFieldsStage qs d2
  (paginateSlice qs d3, metaOf qs d3.length)

/-- `evaluateCondition` as inlined in the second variant's filter: a range
operator always resolves numerically (no date branch, no fall-through), a
plain string matches by substring or loose equality, and there is no
OR-list split. -/
def evalCondV2 (v : Value) (s : String) : Bool :=
  match rangeOp s with
  | some (k, op) =>
    match parseFloatJS op, toNumberVal v with
    | some n, some m => cmpByKind k m n
    | _, _ => false
  | none =>
    match v with
    | .vStr t => listHasSub (lowerStr t).data (lowerStr s).data
    | _ => looseEqStr v s

/-- One key of the second variant's filter predicate: an array value is not
string-typed, so it falls to `itemValue === value || itemValue == value`,
which loosely compares against the array's comma join. -/
def passKeyV2 (item : Rec) (key : String) (qv : QVal) : Bool :=
  match item.lookup key with
  | none => false
  | some .vNull => false
  | some v =>
    match qv with
    | .qStr s => evalCondV2 v s
    | .qArr l => looseEqStr v (joinComma l)

/-- The second variant's whole-record filter predicate. -/
def passRecordV2 (qo : QuerySpec) (item : Rec) : Bool :=
  qo.all (fun kv => passKeyV2 item kv.1 kv.2)

/-- `APIFeatures.filter` of the second variant. -/
def filterStageV2 (qs : QuerySpec) (data : List Rec) : List Rec :=
  let qo := nonReserved qs
  if qo.isEmpty then data else data.filter (passRecordV2 qo)

/-- The second variant's full pipeline: `getMetadata` counts the
`originalData` snapshot taken in the constructor, i.e. the unfiltered
input. -/
def runPipelineV2 (input : List Rec) (qs : QuerySpec) : List Rec × Meta :=
  let d1 := filterStageV2 qs input
  let d2 := sortStageV1 qs d1
  let d3 := limitFieldsStage qs d2
  (paginateSlice qs d3, metaOf qs input.length)

/-! ## The aliasing model of the chained calls (first variant)

`this.data = data` in the constructor stores a reference to the caller's
array; `filter`, `map` and `slice` allocate fresh arrays, while
`Array.prototype.sort` reorders its receiver in place.  `FeatState` carries
the caller's array and whether `this.data` still aliases it. -/

/-- The mutable state of one `APIFeatures` instance together with the
caller's array. -/
structure FeatState where
  caller : List Rec
  data : List Rec
  aliased : Bool
  qs : QuerySpec
deriving Repr

/-- `new APIFeatures(input, qs)`: `this.data` aliases the caller's array. -/
def mkFeatures (input : List Rec) (qs : QuerySpec) : FeatState :=
  { caller := input, data := input, aliased := true, qs := qs }

/-- `.filter()`: when at least one non-reserved key is present,
`Array.prototype.filter` allocates a fresh array for `this.data`. -/
def filterStep (st : FeatState) : FeatState :=
  let qo := nonReserved st.qs
  if qo.isEmpty then st
  else { st with data := st.data.filter (passRecordV1 qo), aliased := false }

/-- `.sort()`: `Array.prototype.sort` reorders `this.data` in place, so the
caller's array changes whenever `this.data` still aliases it. -/
def sortStep (st : FeatState) : FeatState :=
  match sortFieldsOf st.qs with
  | some fs =>
    let sorted := sortListCmp (cmpRecords fs) st.data
    { st with data := sorted, caller := if st.aliased then sorted else st.caller }
  | none => st

/-- `.limitFields()`: `Array.prototype.map` allocates. -/
def limitFieldsStep (st : FeatState) : FeatState :=
  match fieldsOf st.qs with
  | some fl => { st with data := st.data.map (projectRec fl), aliased := false }
  | none => st

/-- `.paginate()`: `slice` allocates (and `filteredData = [...data]` copies). -/
def paginateStep (st : FeatState) : FeatState :=
  { st with data := paginateSlice st.qs st.data, aliased := false }

/-- The whole chained invocation of the first variant. -/
def runChain (input : List Rec) (qs : QuerySpec) : FeatState :=
  paginateStep (limitFieldsStep (sortStep (filterStep (mkFeatures input qs))))

/-! ## Length preservation of the middle stages -/

theorem insertStable_length (cmp : Rec → Rec → Int) (x : Rec) (l : List Rec) :
    (insertStable cmp x l).length = l.length + 1 := by
  induction l with
  | nil => rfl
  | cons y ys ih =>
    simp only [insertStable]
    split
    · simp
    · simp [ih]

theorem sortListCmp_length (cmp : Rec → Rec → Int) (l : List Rec) :
    (sortListCmp cmp l).length = l.length := by
  induction l with
  | nil => rfl
  | cons x xs ih => simp [sortListCmp, insertStable_length, ih]

theorem sortStageV1_length (qs : QuerySpec) (data : List Rec) :
    (sortStageV1 qs data).length = data.length := by
  unfold sortStageV1
  cases sortFieldsOf qs with
  | some fs => simp [sortListCmp_length]
  | none => rfl

theorem limitFieldsStage_length (qs : QuerySpec) (data : List Rec) :
    (limitFieldsStage qs data).length = data.length := by
  unfold limitFieldsStage
  cases fieldsOf qs with
  | some fl => simp
  | none => rfl

theorem runPipelineV1_total (input : List Rec) (qs : QuerySpec) :
    (runPipelineV1 input qs).2.total = (filterStageV1 qs input).length := by
  show (metaOf qs _).total = _
  simp [metaOf, limitFieldsStage_length, sortStageV1_length]

/-! ## Updating a reserved query entry does not change the filter input -/

/-- Replace (or append) one query-string entry. -/
def setQKey : QuerySpec → String → QVal → QuerySpec
  | [], k, v => [(k, v)]
  | (k', v') :: rest, k, v =>
    if k' == k then (k', v) :: rest else (k', v') :: setQKey rest k v

theorem nonReserved_setQKey (qs : QuerySpec) (k : String) (v : QVal)
    (hk : reservedKeys.contains k = true) :
    nonReserved (setQKey qs k v) = nonReserved qs := by
  have hk' : k ∈ reservedKeys := by simpa using hk
  induction qs with
  | nil => simp [setQKey, nonReserved, hk']
  | cons kv rest ih =>
    obtain ⟨k', v'⟩ := kv
    by_cases h : k' = k
    · subst h
      simp [setQKey, nonReserved, List.filter_cons, hk']
    · simp only [setQKey, beq_iff_eq, if_neg h]
      simp only [nonReserved] at ih
      simp only [nonReserved, List.filter_cons]
      split
      · rw [ih]
      · exact ih

theorem filterStageV1_setQKey (qs : QuerySpec) (k : String) (v : QVal)
    (input : List Rec) (hk : reservedKeys.contains k = true) :
    filterStageV1 (setQKey qs k v) input = filterStageV1 qs input := by
  unfold filterStageV1
  rw [nonReserved_setQKey qs k v hk]

/-! ## Claim C1 -/

/-- Input with one record passing and one failing the filter. -/
def c1Input : List Rec :=
  [[("severity", .vStr "critical")], [("severity", .vStr "warning")]]

/-- One non-reserved filter key. -/
def c1Query : QuerySpec := [("severity", .qStr "critical")]

/-- Claim C1: in the first variant, `getMetadata().total` is the length of
the filter stage's output (the pre-pagination count, since sorting and
projection preserve length) and is unchanged by overwriting the `page` and
`limit` entries; in the second variant, on a concrete input whose filter
keeps 1 of 2 records, `total` is 2 — the unfiltered input size — so the
claim fails on that variant. -/
theorem c1_total_semantics :
    (∀ (input : List Rec) (qs : QuerySpec),
        (runPipelineV1 input qs).2.total = (filterStageV1 qs input).length
        ∧ ∀ p l : QVal,
            (runPipelineV1 input (setQKey (setQKey qs "page" p) "limit" l)).2.total
              = (runPipelineV1 input qs).2.total)
    ∧ (runPipelineV2 c1Input c1Query).2.total = 2
    ∧ (filterStageV2 c1Query c1Input).length = 1 := by
  refine ⟨fun input qs => ⟨runPipelineV1_total input qs, fun p l => ?_⟩, by decide, by decide⟩
  rw [runPipelineV1_total, runPipelineV1_total,
    filterStageV1_setQKey _ _ _ _ (by decide), filterStageV1_setQKey _ _ _ _ (by decide)]

/-! ## Claim C2 -/

theorem passKeyV1_pair (item : Rec) (k a b : String) :
    passKeyV1 item k (.qArr [a, b])
      = (passKeyV1 item k (.qStr a) && passKeyV1 item k (.qStr b)) := by
  unfold passKeyV1
  cases h : item.lookup k with
  | none => rfl
  | some v => cases v <;> simp [List.all]

theorem filterStageV1_single (k : String) (qv : QVal) (R : List Rec)
    (hk : reservedKeys.contains k = false) :
    filterStageV1 [(k, qv)] R = R.filter (fun r => passKeyV1 r k qv) := by
  unfold filterStageV1
  have hk' : k ∉ reservedKeys := by simpa using hk
  have h1 : nonReserved [(k, qv)] = [(k, qv)] := by
    simp [nonReserved, List.filter, hk']
  rw [h1]
  simp only [List.isEmpty_cons, Bool.false_eq_true, if_false]
  apply List.filter_congr
  intro r _
  simp [passRecordV1]

/-- A record on which the two range conditions both hold. -/
def c2Input : List Rec := [[("duration", .vNum ⟨8, 1⟩)]]

/-- Claim C2: in the first variant, filtering a key supplied twice is the
AND of the two single-value filters (so equals their intersection, computed
as the composition of the two filters); the record `{duration: 8}` passes
`duration=["gte:5","lte:10"]` there.  The second variant does not special-
case arrays: it loosely compares the field value against the array's comma
join and drops that record, so the claim fails on the second variant. -/
theorem c2_repeated_key_and :
    (∀ (R : List Rec) (k a b : String), reservedKeys.contains k = false →
        filterStageV1 [(k, .qArr [a, b])] R
          = filterStageV1 [(k, .qStr b)] (filterStageV1 [(k, .qStr a)] R))
    ∧ filterStageV1 [("duration", .qArr ["gte:5", "lte:10"])] c2Input = c2Input
    ∧ filterStageV2 [("duration", .qArr ["gte:5", "lte:10"])] c2Input = [] := by
  refine ⟨fun R k a b hk => ?_, by decide, by decide⟩
  rw [filterStageV1_single _ _ _ hk, filterStageV1_single _ _ _ hk,
    filterStageV1_single _ _ _ hk, List.filter_filter]
  apply List.filter_congr
  intro r _
  rw [passKeyV1_pair]
  exact Bool.and_comm _ _

/-- Witness for C2's universally quantified part at the doc'd range query. -/
theorem c2_repeated_key_and_witness :
    filterStageV1 [("duration", QVal.qArr ["gte:5", "lte:10"])] c2Input
      = filterStageV1 [("duration", QVal.qStr "lte:10")]
          (filterStageV1 [("duration", QVal.qStr "gte:5")] c2Input) :=
  c2_repeated_key_and.1 c2Input "duration" "gte:5" "lte:10" (by decide)

/-! ## Claim C3 -/

theorem caller_filterStep (st : FeatState) : (filterStep st).caller = st.caller := by
  simp only [filterStep]
  split <;> rfl

theorem qs_filterStep (st : FeatState) : (filterStep st).qs = st.qs := by
  simp only [filterStep]
  split <;> rfl

theorem caller_limitFieldsStep (st : FeatState) :
    (limitFieldsStep st).caller = st.caller := by
  unfold limitFieldsStep
  cases fieldsOf st.qs <;> rfl

theorem caller_paginateStep (st : FeatState) : (paginateStep st).caller = st.caller := rfl

/-- A caller-owned array of two out-of-order records. -/
def c3Input : List Rec := [[("x", .vNum ⟨2, 1⟩)], [("x", .vNum ⟨1, 1⟩)]]

/-- Counterexample to claim C3 as stated: with a sort key and no
non-reserved filter key, the chained pipeline reorders the caller's input
array in place (the filter stage left `this.data` aliasing it, and
`Array.prototype.sort` mutates its receiver). -/
theorem c3_counterexample :
    (runChain c3Input [("sort", QVal.qStr "x")]).caller ≠ c3Input
    ∧ (runChain c3Input [("sort", QVal.qStr "x")]).caller
        = [[("x", .vNum ⟨1, 1⟩)], [("x", .vNum ⟨2, 1⟩)]] := by
  exact ⟨by decide, by decide⟩

/-- Claim C3 (amended): one invocation leaves the caller's input sequence
unchanged provided a non-reserved filter key is present (so the filter
stage replaced `this.data` by a fresh array before the in-place sort) or no
sort key is active; only the combination "no filter keys and an active
`sort`" can reorder the caller's array. -/
theorem c3_input_preserved (input : List Rec) (qs : QuerySpec)
    (h : nonReserved qs ≠ [] ∨ sortFieldsOf qs = none) :
    (runChain input qs).caller = input := by
  unfold runChain
  rw [caller_paginateStep, caller_limitFieldsStep]
  rcases h with h | h
  · have hst : filterStep (mkFeatures input qs)
        = { caller := input, data := input.filter (passRecordV1 (nonReserved qs)),
            aliased := false, qs := qs } := by
      unfold filterStep mkFeatures
      have : (nonReserved qs).isEmpty = false := by
        cases hq : nonReserved qs with
        | nil => exact absurd hq h
        | cons a l => rfl
      simp [this]
    rw [hst]
    cases hsf : sortFieldsOf qs <;> simp [sortStep, hsf]
  · have hqs : (filterStep (mkFeatures input qs)).qs = qs := qs_filterStep _
    unfold sortStep
    rw [hqs, h]
    exact caller_filterStep _

/-- Witness for C3's amended statement: same sort key, but with a filter
key present the caller's array survives. -/
theorem c3_input_preserved_witness :
    (runChain c3Input [("sort", QVal.qStr "x"), ("y", QVal.qStr "z")]).caller = c3Input :=
  c3_input_preserved c3Input [("sort", QVal.qStr "x"), ("y", QVal.qStr "z")]
    (Or.inl (by decide))

/-! ## Claim C4 -/

/-- Counterexample to claim C4 as stated: `page=-5` is parsed by
`Number(x) || 1`, which only replaces `NaN` and `0`, so the effective page
is `-5`, not `max(1, -5) = 1`, and is smaller than `1`. -/
theorem c4_counterexample :
    effPage [("page", QVal.qStr "-5")] = ⟨-5, 1⟩
    ∧ JNum.lt (effPage [("page", QVal.qStr "-5")]) (JNum.ofInt 1) = true
    ∧ effLimit [("limit", QVal.qStr "-3")] = ⟨-3, 1⟩ := by
  exact ⟨by decide, by decide, by decide⟩

/-- Claim C4 (amended): `page` falls back to `1` and `limit` to `100`
exactly when `Number` yields `NaN` (missing or non-numeric input) or `0`;
any other parsed value — including negative and fractional ones, which are
then smaller than `1` — is used as is, and
`totalPages = ceil(total / limit)` for the effective limit. -/
theorem c4_param_defaults :
    (∀ qs : QuerySpec,
      (qvalToNumber (qs.lookup "page") = none → effPage qs = JNum.ofInt 1)
      ∧ (∀ q : JNum, qvalToNumber (qs.lookup "page") = some q → q.num = 0 →
          effPage qs = JNum.ofInt 1)
      ∧ (∀ q : JNum, qvalToNumber (qs.lookup "page") = some q → q.num ≠ 0 →
          effPage qs = q)
      ∧ (qvalToNumber (qs.lookup "limit") = none → effLimit qs = JNum.ofInt 100)
      ∧ (∀ q : JNum, qvalToNumber (qs.lookup "limit") = some q → q.num = 0 →
          effLimit qs = JNum.ofInt 100)
      ∧ (∀ q : JNum, qvalToNumber (qs.lookup "limit") = some q → q.num ≠ 0 →
          effLimit qs = q))
    ∧ ∀ (qs : QuerySpec) (total : Nat),
        (metaOf qs total).totalPages
          = ceilRat ((total : Int) * (effLimit qs).den) (effLimit qs).num := by
  refine ⟨fun qs => ⟨fun h => ?_, fun q h h0 => ?_, fun q h h0 => ?_,
    fun h => ?_, fun q h h0 => ?_, fun q h h0 => ?_⟩, fun qs total => rfl⟩
  · simp [effPage, numOr, h]
  · simp [effPage, numOr, h, h0]
  · simp [effPage, numOr, h, h0]
  · simp [effLimit, numOr, h]
  · simp [effLimit, numOr, h, h0]
  · simp [effLimit, numOr, h, h0]

/-- Witness for C4's amended statement: the parsed `-5` passes through. -/
theorem c4_param_defaults_witness :
    effPage [("page", QVal.qStr "-5")] = ⟨-5, 1⟩ :=
  (c4_param_defaults.1 [("page", QVal.qStr "-5")]).2.2.1 ⟨-5, 1⟩ (by decide) (by decide)

/-! ## Claim C10 -/

/-- Claim C10: a boolean field value is never matched by its own textual
spelling — on its own or as an OR-list sub-value (the sub-value comparison
is the same loose equality) — because `true == "true"` compares `1` with
`NaN`; the filter therefore excludes the record. -/
theorem c10_bool_vs_spelling (r : Rec) (k : String) (b : Bool) (data : List Rec)
    (hk : reservedKeys.contains k = false)
    (hv : r.lookup k = some (.vBool b)) :
    evalConditionV1 (.vBool b) (if b then "true" else "false") = false
    ∧ looseEqStr (.vBool b) (if b then "true" else "false") = false
    ∧ r ∉ filterStageV1 [(k, QVal.qStr (if b then "true" else "false"))] data := by
  have h1 : evalConditionV1 (.vBool b) (if b then "true" else "false") = false := by
    cases b <;> decide
  have h2 : looseEqStr (.vBool b) (if b then "true" else "false") = false := by
    cases b <;> decide
  refine ⟨h1, h2, ?_⟩
  rw [filterStageV1_single _ _ _ hk]
  intro hmem
  have hpass := (List.mem_filter.mp hmem).2
  simp [passKeyV1, hv, h1] at hpass

/-- A record whose `ok` field is the boolean `true`. -/
def c10Rec : Rec := [("ok", .vBool true)]

/-- Witness for C10 at `{ok: true}` against `ok=true`. -/
theorem c10_bool_vs_spelling_witness :
    evalConditionV1 (.vBool true) "true" = false
    ∧ looseEqStr (.vBool true) "true" = false
    ∧ c10Rec ∉ filterStageV1 [("ok", QVal.qStr "true")] [c10Rec] :=
  c10_bool_vs_spelling c10Rec "ok" true [c10Rec] (by decide) (by decide)

/-! ## Claim C9 -/

/-! ## Claim C9 -/

theorem lookup_setKey (r : Rec) (k : String) (v : Value) (k' : String) :
    (setKey r k v).lookup k' = if k' == k then some v else r.lookup k' := by
  induction r with
  | nil =>
    by_cases h : k' = k
    · simp [setKey, List.lookup, h]
    · have hb : (k' == k) = false := by simp [h]
      simp [setKey, List.lookup, hb]
  | cons kv rest ih =>
    obtain ⟨k1, v1⟩ := kv
    by_cases h : k1 = k
    · subst h
      by_cases h2 : k' = k1
      · simp [setKey, List.lookup, h2]
      · have hb2 : (k' == k1) = false := by simp [h2]
        simp [setKey, List.lookup, hb2]
    · have hb : (k1 == k) = false := by simp [h]
      by_cases h2 : k' = k1
      · subst h2
        have hbk : (k' == k) = false := by simp [h]
        simp [setKey, List.lookup, hb, hbk]
      · have hb2 : (k' == k1) = false := by simp [h2]
        simp [setKey, List.lookup, hb, hb2, ih]

theorem mem_setKey (r : Rec) (k : String) (v : Value) (kk : String) (vv : Value)
    (h : (kk, vv) ∈ setKey r k v) : (kk, vv) ∈ r ∨ (kk = k ∧ vv = v) := by
  induction r with
  | nil =>
    simp only [setKey, List.mem_singleton, Prod.mk.injEq] at h
    exact Or.inr h
  | cons kv rest ih =>
    obtain ⟨k1, v1⟩ := kv
    by_cases hk : k1 = k
    · subst hk
      have hstep : setKey ((k1, v1) :: rest) k1 v = (k1, v) :: rest := by
        simp [setKey]
      rw [hstep] at h
      rcases List.mem_cons.mp h with h | h
      · exact Or.inr ⟨(Prod.ext_iff.mp h).1, (Prod.ext_iff.mp h).2⟩
      · exact Or.inl (List.mem_cons_of_mem _ h)
    · have hb : (k1 == k) = false := by simp [hk]
      simp only [setKey, hb, Bool.false_eq_true, if_false, List.mem_cons] at h
      rcases h with h | h
      · exact Or.inl (by rw [h]; exact List.mem_cons_self _ _)
      · rcases ih h with h' | h'
        · exact Or.inl (List.mem_cons_of_mem _ h')
        · exact Or.inr h'

theorem lookup_projectAux (item : Rec) (fl : List String) (acc : Rec) (f : String) :
    (projectAux item fl acc).lookup f
      = if f ∈ fl ∧ (item.lookup f).isSome then item.lookup f else acc.lookup f := by
  induction fl generalizing acc with
  | nil => simp [projectAux]
  | cons f1 rest ih =>
    cases hl : item.lookup f1 with
    | some v =>
      simp only [projectAux, hl]
      rw [ih]
      by_cases hmem : f ∈ rest ∧ (item.lookup f).isSome
      · rw [if_pos hmem, if_pos ⟨List.mem_cons_of_mem _ hmem.1, hmem.2⟩]
      · rw [if_neg hmem, lookup_setKey]
        by_cases hf : f = f1
        · subst hf
          have hs : (item.lookup f).isSome := by rw [hl]; rfl
          have h1 : (if f ∈ f :: rest ∧ (item.lookup f).isSome then item.lookup f
              else acc.lookup f) = item.lookup f :=
            if_pos ⟨List.mem_cons_self _ _, hs⟩
          rw [h1, hl]
          simp
        · have hb : (f == f1) = false := by simp [hf]
          rw [hb]
          have hnc : ¬(f ∈ f1 :: rest ∧ (item.lookup f).isSome) := by
            rintro ⟨h1, h2⟩
            rcases List.mem_cons.mp h1 with h | h
            · exact hf h
            · exact hmem ⟨h, h2⟩
          rw [if_neg hnc]
          rfl
    | none =>
      simp only [projectAux, hl]
      rw [ih]
      by_cases hmem : f ∈ rest ∧ (item.lookup f).isSome
      · rw [if_pos hmem, if_pos ⟨List.mem_cons_of_mem _ hmem.1, hmem.2⟩]
      · rw [if_neg hmem]
        have hnc : ¬(f ∈ f1 :: rest ∧ (item.lookup f).isSome) := by
          rintro ⟨h1, h2⟩
          rcases List.mem_cons.mp h1 with h | h
          · rw [h, hl] at h2
            exact Bool.false_ne_true h2
          · exact hmem ⟨h, h2⟩
        rw [if_neg hnc]

theorem projectAux_congr (item1 item2 : Rec) (fl : List String) (acc : Rec)
    (h : ∀ f ∈ fl, item2.lookup f = item1.lookup f) :
    projectAux item2 fl acc = projectAux item1 fl acc := by
  induction fl generalizing acc with
  | nil => rfl
  | cons f1 rest ih =>
    have h1 := h f1 (List.mem_cons_self _ _)
    simp only [projectAux, h1]
    cases item1.lookup f1 <;>
      exact ih _ (fun f hf => h f (List.mem_cons_of_mem _ hf))

theorem projectRec_idem (fl : List String) (item : Rec) :
    projectRec fl (projectRec fl item) = projectRec fl item := by
  unfold projectRec
  apply projectAux_congr
  intro f hf
  show (projectRec fl item).lookup f = item.lookup f
  rw [show projectRec fl item = projectAux item fl [] from rfl, lookup_projectAux]
  by_cases hs : (item.lookup f).isSome
  · rw [if_pos ⟨hf, hs⟩]
  · rw [if_neg (fun hc => hs hc.2)]
    cases hl : item.lookup f with
    | some v => exact absurd (by rw [hl]; rfl) hs
    | none => rfl

/-- Claim C9: the projection stage is idempotent (applying `limitFields`
twice with the same `fields` equals applying it once), and every field of a
projected record is a requested field that existed, with the same value, on
the source record — projection never introduces fields. -/
theorem c9_projection :
    (∀ (qs : QuerySpec) (data : List Rec),
        limitFieldsStage qs (limitFieldsStage qs data) = limitFieldsStage qs data)
    ∧ ∀ (fl : List String) (item : Rec) (kk : String) (vv : Value),
        (kk, vv) ∈ projectRec fl item → item.lookup kk = some vv ∧ kk ∈ fl := by
  constructor
  · intro qs data
    cases hf : fieldsOf qs with
    | some fl =>
      simp only [limitFieldsStage, hf, List.map_map]
      exact List.map_congr_left (fun item _ => projectRec_idem fl item)
    | none => simp only [limitFieldsStage, hf]
  · intro fl item kk vv h
    have aux : ∀ acc : Rec, (kk, vv) ∈ projectAux item fl acc →
        (item.lookup kk = some vv ∧ kk ∈ fl) ∨ (kk, vv) ∈ acc := by
      clear h
      induction fl with
      | nil => exact fun acc h => Or.inr h
      | cons f1 rest ih =>
        intro acc h
        simp only [projectAux] at h
        cases hl : item.lookup f1 with
        | some v =>
          rw [hl] at h
          rcases ih _ h with ⟨h1, h2⟩ | h'
          · exact Or.inl ⟨h1, List.mem_cons_of_mem _ h2⟩
          · rcases mem_setKey _ _ _ _ _ h' with h'' | ⟨he1, he2⟩
            · exact Or.inr h''
            · subst he1
              subst he2
              exact Or.inl ⟨hl, List.mem_cons_self _ _⟩
        | none =>
          rw [hl] at h
          rcases ih _ h with ⟨h1, h2⟩ | h'
          · exact Or.inl ⟨h1, List.mem_cons_of_mem _ h2⟩
          · exact Or.inr h'
    rcases aux [] h with h' | h'
    · exact h'
    · exact absurd h' (List.not_mem_nil _)

/-- The projection example record of the spec. -/
def c9Item : Rec :=
  [("name", .vStr "X"), ("severity", .vStr "critical"), ("duration", .vNum ⟨8, 1⟩)]

/-- Witness for C9's no-new-fields part at the spec's projection example. -/
theorem c9_projection_witness :
    c9Item.lookup "name" = some (.vStr "X") ∧ "name" ∈ ["name", "severity"] :=
  c9_projection.2 ["name", "severity"] c9Item "name" (.vStr "X") (by decide)
/-! ## Claim C7 -/

theorem filter_insertStable_of_le (cmp : Rec → Rec → Int) (p : Rec → Bool) (x : Rec)
    (hx : p x = true) (hle : ∀ b, p b = true → cmp x b ≤ 0) (s : List Rec) :
    (insertStable cmp x s).filter p = x :: s.filter p := by
  induction s with
  | nil => simp [insertStable, hx]
  | cons y ys ih =>
    by_cases hc : cmp x y ≤ 0
    · simp [insertStable, hc, List.filter_cons, hx]
    · have hpy : p y = false := by
        cases hpy : p y
        · rfl
        · exact absurd (hle y hpy) hc
      simp [insertStable, hc, List.filter_cons, hpy, ih]

theorem filter_insertStable_of_false (cmp : Rec → Rec → Int) (p : Rec → Bool) (x : Rec)
    (hx : p x = false) (s : List Rec) :
    (insertStable cmp x s).filter p = s.filter p := by
  induction s with
  | nil => simp [insertStable, hx]
  | cons y ys ih =>
    by_cases hc : cmp x y ≤ 0 <;> simp [insertStable, hc, List.filter_cons, hx, ih]

theorem filter_sortListCmp (cmp : Rec → Rec → Int) (p : Rec → Bool)
    (hp : ∀ a b, p a = true → p b = true → cmp a b = 0) (l : List Rec) :
    (sortListCmp cmp l).filter p = l.filter p := by
  induction l with
  | nil => rfl
  | cons x xs ih =>
    cases hx : p x
    · rw [sortListCmp, filter_insertStable_of_false _ _ _ hx, ih, List.filter_cons, hx]
      simp
    · rw [sortListCmp,
        filter_insertStable_of_le _ _ _ hx (fun b hb => le_of_eq (hp x b hx hb)), ih]
      simp [List.filter_cons, hx]

theorem cmpField_eq_zero (a b : Rec) (f : String)
    (h : jsStrictEqOpt (a.lookup (stripDesc f).2) (b.lookup (stripDesc f).2) = true) :
    cmpField a b f = 0 := by
  simp only [cmpField, h, if_true]

theorem cmpRecords_eq_zero (fs : List String) (a b : Rec)
    (h : ∀ f ∈ fs, jsStrictEqOpt (a.lookup (stripDesc f).2) (b.lookup (stripDesc f).2) = true) :
    cmpRecords fs a b = 0 := by
  induction fs with
  | nil => rfl
  | cons f rest ih =>
    have h1 := cmpField_eq_zero a b f (h f (List.mem_cons_self _ _))
    simp [cmpRecords, h1, ih (fun g hg => h g (List.mem_cons_of_mem _ hg))]

/-- Claim C7: the sort stage is stable — for any class of records (selected
by `p`) that are pairwise strictly equal on every active sort key, the
comparator returns 0, and the class appears in the sorted output as exactly
its input subsequence. -/
theorem c7_sort_stable (qs : QuerySpec) (data : List Rec) (fs : List String)
    (hfs : sortFieldsOf qs = some fs) (p : Rec → Bool)
    (heq : ∀ a b : Rec, p a = true → p b = true →
        ∀ f ∈ fs, jsStrictEqOpt (a.lookup (stripDesc f).2) (b.lookup (stripDesc f).2) = true) :
    (sortStageV1 qs data).filter p = data.filter p := by
  unfold sortStageV1
  rw [hfs]
  exact filter_sortListCmp _ p
    (fun a b ha hb => cmpRecords_eq_zero fs a b (heq a b ha hb)) data

/-- Two records equal on the sort key `x`, distinguished by `y`. -/
def c7Data : List Rec :=
  [[("x", .vNum ⟨1, 1⟩), ("y", .vStr "a")], [("x", .vNum ⟨1, 1⟩), ("y", .vStr "b")]]

/-- The class of records whose `x` field is the number 1. -/
def c7P (r : Rec) : Bool := decide (r.lookup "x" = some (.vNum ⟨1, 1⟩))

/-- Witness for C7: sorting `c7Data` by `x` keeps the two equal records in
their input order. -/
theorem c7_sort_stable_witness :
    (sortStageV1 [("sort", QVal.qStr "x")] c7Data).filter c7P = c7Data.filter c7P :=
  c7_sort_stable [("sort", QVal.qStr "x")] c7Data ["x"] (by decide) c7P
    (fun a b ha hb f hf => by
      have hfx : f = "x" := by simpa using hf
      subst hfx
      have ha' := of_decide_eq_true ha
      have hb' := of_decide_eq_true hb
      have h2 : (stripDesc "x").2 = "x" := by decide
      rw [h2, ha', hb']
      decide)

/-! ## Claim C5 -/

/-- Counterexample to claim C5 as stated: `gte:abc` has an operand that
parses neither as a date nor as a number, yet evaluating it against the
string field value `"gte:abc"` returns `true` (the range block falls
through to the substring rule), not `false`. -/
theorem c5_counterexample :
    rangeOp "gte:abc" = some (RangeKind.rGte, "abc")
    ∧ isoDateMs "abc" = none
    ∧ parseFloatJS "abc" = none
    ∧ evalConditionV1 (.vStr "gte:abc") "gte:abc" = true := by
  exact ⟨by decide, by decide, by decide, by decide⟩

/-- Claim C5 (amended): when a range operator's operand parses neither as a
date (jointly with the field value) nor as a number, the evaluation never
throws but does not return `false` outright: it falls through to the
generic rules (OR-list split, case-insensitive substring containment for
text values, loose equality otherwise). -/
theorem c5_malformed_operand (fv : Value) (v op : String) (k : RangeKind)
    (hro : rangeOp v = some (k, op))
    (hdate : isoDateMs op = none ∨ jsDateOfValue fv = none)
    (hnum : parseFloatJS op = none) :
    evalConditionV1 fv v = evalPlain fv v := by
  unfold evalConditionV1
  rw [hro]
  dsimp only
  rcases hdate with h | h
  · rw [h, hnum]
  · cases hop : isoDateMs op with
    | none => rw [hnum]
    | some od => rw [h, hnum]

/-- Witness for C5's amended statement: a numeric field value against
`gte:abc` ends up in the generic evaluation (which then rejects it). -/
theorem c5_malformed_operand_witness :
    evalConditionV1 (.vNum ⟨5, 1⟩) "gte:abc" = evalPlain (.vNum ⟨5, 1⟩) "gte:abc" :=
  c5_malformed_operand (.vNum ⟨5, 1⟩) "gte:abc" "abc" RangeKind.rGte
    (by decide) (Or.inl (by decide)) (by decide)

/-! ## Claim C6 -/

theorem strMk_data : ∀ s : String, String.mk s.data = s := fun ⟨_⟩ => rfl

theorem dataAppend (a b : String) : (a ++ "," ++ b).data = a.data ++ ',' :: b.data := by
  simp [String.data_append]

theorem listContainsComma (x y : List Char) : (x ++ ',' :: y).contains ',' = true := by
  induction x with
  | nil => simp
  | cons a as ih => simp [ih]

theorem listStartsWith_append_comma (p x y : List Char)
    (hp : p.contains ',' = false) (hx : listStartsWith x p = false) :
    listStartsWith (x ++ ',' :: y) p = false := by
  induction p generalizing x with
  | nil => simp [listStartsWith] at hx
  | cons c ps ih =>
    simp only [List.contains_cons, Bool.or_eq_false_iff] at hp
    cases x with
    | nil =>
      simp only [List.nil_append, listStartsWith]
      simp [hp.1]
    | cons a as =>
      simp only [List.cons_append, listStartsWith] at hx ⊢
      cases hac : (a == c)
      · simp
      · rw [hac] at hx
        simp only [Bool.true_and] at hx ⊢
        exact ih as hp.2 hx

/-- Whether `s` begins with one of the four range-operator prefixes. -/
def rangeStarts (s : String) : Bool :=
  listStartsWith s.data "gte:".data || listStartsWith s.data "gt:".data
    || listStartsWith s.data "lte:".data || listStartsWith s.data "lt:".data

theorem rangeOp_eq_none (s : String) (h : rangeStarts s = false) : rangeOp s = none := by
  simp only [rangeStarts, Bool.or_eq_false_iff] at h
  obtain ⟨⟨⟨h1, h2⟩, h3⟩, h4⟩ := h
  simp only [rangeOp, h1, h2, h3, h4, Bool.false_and, Bool.false_eq_true, if_false]

theorem rangeStarts_append (a b : String) (ha : rangeStarts a = false) :
    rangeStarts (a ++ "," ++ b) = false := by
  simp only [rangeStarts, Bool.or_eq_false_iff] at ha ⊢
  rw [dataAppend]
  exact ⟨⟨⟨listStartsWith_append_comma _ _ _ (by decide) ha.1.1.1,
      listStartsWith_append_comma _ _ _ (by decide) ha.1.1.2⟩,
      listStartsWith_append_comma _ _ _ (by decide) ha.1.2⟩,
      listStartsWith_append_comma _ _ _ (by decide) ha.2⟩

theorem splitComma_append (x y : List Char) (hx : x.contains ',' = false) :
    splitComma (x ++ ',' :: y) = x :: splitComma y := by
  induction x with
  | nil => simp [splitComma]
  | cons c cs ih =>
    simp only [List.contains_cons, Bool.or_eq_false_iff, beq_eq_false_iff_ne] at hx
    have hc : (c == ',') = false := by
      simp [Ne.symm hx.1]
    rw [List.cons_append]
    simp only [splitComma, hc, Bool.false_eq_true, if_false]
    rw [ih hx.2]

theorem splitComma_single (y : List Char) (hy : y.contains ',' = false) :
    splitComma y = [y] := by
  induction y with
  | nil => rfl
  | cons c cs ih =>
    simp only [List.contains_cons, Bool.or_eq_false_iff, beq_eq_false_iff_ne] at hy
    have hc : (c == ',') = false := by
      simp [Ne.symm hy.1]
    simp only [splitComma, hc, Bool.false_eq_true, if_false, ih hy.2]

theorem evalPlain_or (v : Value) (a b : String)
    (hca : a.data.contains ',' = false) (hcb : b.data.contains ',' = false)
    (hta : jsTrim a = a) (htb : jsTrim b = b) :
    evalPlain v (a ++ "," ++ b) = (evalPlain v a || evalPlain v b) := by
  have hd := dataAppend a b
  have hsplit : splitCommaStr (a ++ "," ++ b) = [a, b] := by
    unfold splitCommaStr
    rw [hd, splitComma_append _ _ hca, splitComma_single _ hcb]
    simp [strMk_data]
  have hcomma : hasComma (a ++ "," ++ b) = true := by
    unfold hasComma
    rw [hd]
    exact listContainsComma _ _
  have hna : hasComma a = false := hca
  have hnb : hasComma b = false := hcb
  cases v with
  | vStr t => simp [evalPlain, hcomma, hna, hnb, hsplit, hta, htb]
  | vNum q => simp [evalPlain, hcomma, hna, hnb, hsplit, hta, htb]
  | vBool b' => simp [evalPlain, hcomma, hna, hnb, hsplit, hta, htb]
  | vNull => simp [evalPlain, hcomma, hna, hnb, hsplit, hta, htb]

theorem evalConditionV1_of_rangeOp_none (v : Value) (s : String)
    (h : rangeOp s = none) : evalConditionV1 v s = evalPlain v s := by
  unfold evalConditionV1
  rw [h]

theorem evalConditionV1_or (v : Value) (a b : String)
    (hra : rangeStarts a = false) (hrb : rangeStarts b = false)
    (hca : a.data.contains ',' = false) (hcb : b.data.contains ',' = false)
    (hta : jsTrim a = a) (htb : jsTrim b = b) :
    evalConditionV1 v (a ++ "," ++ b) = (evalConditionV1 v a || evalConditionV1 v b) := by
  rw [evalConditionV1_of_rangeOp_none _ _ (rangeOp_eq_none _ (rangeStarts_append a b hra)),
    evalConditionV1_of_rangeOp_none _ _ (rangeOp_eq_none _ hra),
    evalConditionV1_of_rangeOp_none _ _ (rangeOp_eq_none _ hrb)]
  exact evalPlain_or v a b hca hcb hta htb

/-- A record passing `lte:10` but not `gte:5,lte:10`. -/
def c6R : List Rec := [[("duration", .vNum ⟨3, 1⟩)]]

/-- Counterexample to claim C6 as stated: for the sub-values `gte:5` and
`lte:10`, the combined string `gte:5,lte:10` matches the range pattern
first (operand `5,lte:10`, `parseFloat` 5), so it filters as `>= 5` and
drops `{duration: 3}`, while the single filter `lte:10` keeps it — the
OR-list union law fails for range-shaped sub-values. -/
theorem c6_counterexample :
    filterStageV1 [("duration", QVal.qStr "gte:5,lte:10")] c6R = []
    ∧ filterStageV1 [("duration", QVal.qStr "lte:10")] c6R = c6R := by
  exact ⟨by decide, by decide⟩

/-- Claim C6 (amended): for trimmed, comma-free sub-values `a`, `b` that do
not begin with a range-operator prefix, filtering with the OR-list `a,b`
keeps exactly the records passing `a` or passing `b` (case-insensitive
substring containment for text field values, loose equality otherwise):
the output equals the filter by the disjunction, and membership in it is
equivalent to membership in either single filter. -/
theorem c6_or_union (R : List Rec) (k a b : String)
    (hk : reservedKeys.contains k = false)
    (hra : rangeStarts a = false) (hrb : rangeStarts b = false)
    (hca : a.data.contains ',' = false) (hcb : b.data.contains ',' = false)
    (hta : jsTrim a = a) (htb : jsTrim b = b) :
    filterStageV1 [(k, QVal.qStr (a ++ "," ++ b))] R
      = R.filter (fun r => passKeyV1 r k (.qStr a) || passKeyV1 r k (.qStr b))
    ∧ ∀ r : Rec, r ∈ filterStageV1 [(k, QVal.qStr (a ++ "," ++ b))] R
        ↔ (r ∈ filterStageV1 [(k, QVal.qStr a)] R
            ∨ r ∈ filterStageV1 [(k, QVal.qStr b)] R) := by
  have hpt : ∀ r : Rec, passKeyV1 r k (.qStr (a ++ "," ++ b))
      = (passKeyV1 r k (.qStr a) || passKeyV1 r k (.qStr b)) := by
    intro r
    unfold passKeyV1
    cases hl : r.lookup k with
    | none => rfl
    | some v =>
      cases v with
      | vNull => rfl
      | vStr t => exact evalConditionV1_or _ a b hra hrb hca hcb hta htb
      | vNum q => exact evalConditionV1_or _ a b hra hrb hca hcb hta htb
      | vBool b' => exact evalConditionV1_or _ a b hra hrb hca hcb hta htb
  constructor
  · rw [filterStageV1_single _ _ _ hk]
    exact List.filter_congr (fun r _ => hpt r)
  · intro r
    rw [filterStageV1_single _ _ _ hk, filterStageV1_single _ _ _ hk,
      filterStageV1_single _ _ _ hk]
    simp only [List.mem_filter, hpt r, Bool.or_eq_true]
    tauto

/-- A record matching the second OR alternative. -/
def c6W : List Rec := [[("severity", .vStr "critical")]]

/-- Witness for C6's amended statement at `severity=warning,critical`. -/
theorem c6_or_union_witness :
    filterStageV1 [("severity", QVal.qStr ("warning" ++ "," ++ "critical"))] c6W
      = c6W.filter (fun r => passKeyV1 r "severity" (.qStr "warning")
          || passKeyV1 r "severity" (.qStr "critical")) :=
  (c6_or_union c6W "severity" "warning" "critical" (by decide) (by decide) (by decide)
    (by decide) (by decide) (by decide) (by decide)).1

/-! ## Claim C8 -/

theorem fdiv_nonpos_of_nonpos {a b : Int} (ha : a ≤ 0) (hb : 0 < b) :
    Int.fdiv a b ≤ 0 := by
  by_contra h
  push_neg at h
  have h1 := Int.fdiv_add_fmod a b
  have h2 : 0 ≤ Int.fmod a b := Int.fmod_nonneg' a hb
  nlinarith

theorem fdiv_mul_le {a b : Int} (hb : 0 < b) : Int.fdiv a b * b ≤ a := by
  have h1 := Int.fdiv_add_fmod a b
  have h2 : 0 ≤ Int.fmod a b := Int.fmod_nonneg' a hb
  nlinarith

theorem le_ceilRat_mul {n d : Int} (hd : 0 < d) :
    n ≤ ceilRat n d * d := by
  unfold ceilRat
  rw [if_pos hd]
  have h1 : Int.fdiv (-n) d * d ≤ -n := fdiv_mul_le hd
  nlinarith

theorem ceilRat_nonneg {n d : Int} (hn : 0 ≤ n) (hd : 0 < d) :
    0 ≤ ceilRat n d := by
  unfold ceilRat
  rw [if_pos hd]
  have h1 : Int.fdiv (-n) d ≤ 0 := fdiv_nonpos_of_nonpos (by omega) hd
  omega

theorem jsSlice_empty_of_ge (l : List Rec) (s e : JNum)
    (h0 : 0 ≤ JNum.trunc s) (hge : (l.length : Int) ≤ JNum.trunc s) :
    jsSlice l s e = [] := by
  simp only [jsSlice]
  rw [if_neg (not_lt.mpr h0), min_eq_right hge]
  apply List.drop_eq_nil_of_le
  refine le_trans ?_ (le_of_eq (show l.length = ((l.length : Int)).toNat by simp))
  rw [List.length_take]
  exact min_le_right _ _

theorem ceilRat_mul_cancel {n m d : Int} (hd : 0 < d) (hm : 0 < m) :
    ceilRat (n * d) (m * d) = ceilRat n m := by
  unfold ceilRat
  have hmd : 0 < m * d := mul_pos hm hd
  rw [if_pos hmd, if_pos hm]
  have h1 : Int.fdiv (-(n * d)) (m * d) = Int.fdiv (-n) m := by
    rw [Int.fdiv_eq_ediv _ (le_of_lt hmd), Int.fdiv_eq_ediv _ (le_of_lt hm),
      show -(n * d) = -n * d from by ring]
    exact Int.mul_ediv_mul_of_pos_left _ _ hd
  rw [h1]

/-- Two records, pages of size 1: page 2.5 is strictly beyond the last page. -/
def c8CexData : List Rec := [[("n", .vNum ⟨1, 1⟩)], [("n", .vNum ⟨2, 1⟩)]]

/-- A fractional page beyond the last page. -/
def c8CexQ : QuerySpec := [("page", .qStr "2.5"), ("limit", .qStr "1")]

/-- Four records for the negative-limit case. -/
def c8CexData2 : List Rec :=
  [[("n", .vNum ⟨1, 1⟩)], [("n", .vNum ⟨2, 1⟩)], [("n", .vNum ⟨3, 1⟩)],
   [("n", .vNum ⟨4, 1⟩)]]

/-- The default page 1 with an unclamped negative limit. -/
def c8CexQ2 : QuerySpec := [("limit", .qStr "-3")]

/-- Counterexample to claim C8 as stated: with `page=2.5`, `limit=1` on two
records, the effective page 2.5 is strictly beyond the last page
(`totalPages = 2`), yet `skip = 1.5` truncates to 1 and `slice(1, 2.5)`
returns the second record — a non-empty page; and with the unclamped
`limit=-3` on four records, page 1 is strictly beyond `totalPages = -1`,
yet `slice(0, -3)` returns the first record.  (`hasNextPage = false` does
hold in both cases.) -/
theorem c8_counterexample :
    (JNum.lt (JNum.ofInt (metaOf c8CexQ c8CexData.length).totalPages)
        (effPage c8CexQ) = true
      ∧ paginateSlice c8CexQ c8CexData = [[("n", .vNum ⟨2, 1⟩)]]
      ∧ (metaOf c8CexQ c8CexData.length).hasNextPage = false)
    ∧ (JNum.lt (JNum.ofInt (metaOf c8CexQ2 c8CexData2.length).totalPages)
        (effPage c8CexQ2) = true
      ∧ paginateSlice c8CexQ2 c8CexData2 = [[("n", .vNum ⟨1, 1⟩)]]
      ∧ (metaOf c8CexQ2 c8CexData2.length).hasNextPage = false) := by
  exact ⟨⟨by decide, by decide, by decide⟩, ⟨by decide, by decide, by decide⟩⟩

/-- Claim C8 (amended): when the effective `page` and `limit` are
integer-valued (the caller supplied whole numbers) with `limit ≥ 1`, a
`page` strictly beyond `totalPages` makes `paginate` slice from an index at
or past the end of the sequence: it returns the empty sequence rather than
raising an error (`slice` clips), and `getMetadata` still computes the full
metadata with `hasNextPage = false`.  A fractional page, or a negative
limit, strictly beyond the last page can instead return a non-empty
slice. -/
theorem c8_beyond_last_page (qs : QuerySpec) (data : List Rec) (pz Lz : Int)
    (hpd : 0 < (effPage qs).den) (hLd : 0 < (effLimit qs).den)
    (hp : (effPage qs).num = pz * (effPage qs).den)
    (hL : (effLimit qs).num = Lz * (effLimit qs).den)
    (hL1 : 1 ≤ Lz)
    (hbeyond : (metaOf qs data.length).totalPages < pz) :
    paginateSlice qs data = [] ∧ (metaOf qs data.length).hasNextPage = false := by
  have hLz0 : (0 : Int) < Lz := by omega
  have hn0 : (0 : Int) ≤ (data.length : Int) := Int.ofNat_nonneg _
  have htp : (metaOf qs data.length).totalPages = ceilRat (data.length : Int) Lz := by
    show ceilRat ((data.length : Int) * (effLimit qs).den) (effLimit qs).num = _
    rw [hL]
    exact ceilRat_mul_cancel hLd hLz0
  rw [htp] at hbeyond
  have htp0 : 0 ≤ ceilRat (data.length : Int) Lz := ceilRat_nonneg hn0 hLz0
  have hpz1 : 1 ≤ pz := by omega
  have hskip : (data.length : Int) ≤ (pz - 1) * Lz := by
    have hc : ceilRat (data.length : Int) Lz ≤ pz - 1 := by omega
    calc (data.length : Int) ≤ ceilRat (data.length : Int) Lz * Lz :=
        le_ceilRat_mul hLz0
      _ ≤ (pz - 1) * Lz := mul_le_mul_of_nonneg_right hc (le_of_lt hLz0)
  have hdd : (0 : Int) < (effPage qs).den * 1 * (effLimit qs).den := by
    rw [mul_one]
    exact mul_pos hpd hLd
  have htr : JNum.trunc (JNum.mul (JNum.sub (effPage qs) (JNum.ofInt 1)) (effLimit qs))
      = (pz - 1) * Lz := by
    simp only [JNum.mul, JNum.sub, JNum.ofInt, JNum.trunc]
    rw [show ((effPage qs).num * 1 - 1 * (effPage qs).den) * (effLimit qs).num
        = ((effPage qs).den * 1 * (effLimit qs).den) * ((pz - 1) * Lz) from by
      rw [hp, hL]; ring]
    exact Int.mul_tdiv_cancel_left _ (ne_of_gt hdd)
  constructor
  · simp only [paginateSlice]
    apply jsSlice_empty_of_ge
    · rw [htr]
      exact mul_nonneg (by omega) (by omega)
    · rw [htr]
      exact hskip
  · simp only [metaOf, JNum.lt, JNum.ofInt]
    apply decide_eq_false
    intro hcon
    rw [mul_one, hp, hL, ceilRat_mul_cancel hLd hLz0] at hcon
    have h2 : ceilRat (data.length : Int) Lz ≤ pz - 1 := by omega
    have h3 := mul_le_mul_of_nonneg_right h2 (le_of_lt hpd)
    nlinarith [hpd]

/-- A three-record sequence for the boundary witness. -/
def c8Data : List Rec :=
  [[("n", .vNum ⟨1, 1⟩)], [("n", .vNum ⟨2, 1⟩)], [("n", .vNum ⟨3, 1⟩)]]

/-- Witness for C8's amended statement: `page=5`, `limit=2` on 3 records
(2 pages). -/
theorem c8_beyond_last_page_witness :
    paginateSlice [("page", QVal.qStr "5"), ("limit", QVal.qStr "2")] c8Data = []
    ∧ (metaOf [("page", QVal.qStr "5"), ("limit", QVal.qStr "2")]
        c8Data.length).hasNextPage = false :=
  c8_beyond_last_page [("page", QVal.qStr "5"), ("limit", QVal.qStr "2")] c8Data 5 2
    (by decide) (by decide) (by decide) (by decide) (by decide) (by decide)
end DashboardBackend
